import Mathlib

/-!
Verification of the `aio-limited` rate limiter.

Shallow embedding of the Rust sources:
  * `src/algorithms/mod.rs`    — `Id`, `Token`
  * `src/algorithms/bucket.rs` — `Bucket` and its operations
  * `src/limiter.rs`           — `Limiter` (bucket + waiter registry)
  * `src/limited.rs`           — `Limited<T>` read/write/flush/shutdown
  * `src/error.rs`             — the `Error` enum

All machine integers in the sources are `usize`; the quantities involved
(capacities, parts counters, byte counts) never approach `2^64` in any of
the properties below, so they are embedded as `Nat`.  Subtractions in the
source occur only when the subtrahend is bounded by the minuend (proved
where relevant), so `Nat` truncated subtraction agrees with the source.
Stateful methods (`&self` with an interior lock) become functions from the
state to the updated state.
-/

namespace AioLimited

/-- `error.rs`: the error enum.  `Io` and `Exec` carry opaque payloads
(an `io::Error` / `SpawnError`), embedded as a numeric code.  The hidden
`__Nonexhaustive` variant is never constructed and is omitted. -/
inductive Error where
  | Io : Nat → Error
  | Exec : Nat → Error
  | NoCapacity : Error
  | TimerError : Error
deriving Repr, DecidableEq

/-- Decidable equality on `Except`, so concrete runs of the fallible
operations can be checked by `decide`. -/
instance {ε α : Type} [DecidableEq ε] [DecidableEq α] : DecidableEq (Except ε α) := fun a b =>
  match a, b with
  | .ok x, .ok y =>
    if h : x = y then .isTrue (by rw [h]) else .isFalse (by intro hc; cases hc; exact h rfl)
  | .error x, .error y =>
    if h : x = y then .isTrue (by rw [h]) else .isFalse (by intro hc; cases hc; exact h rfl)
  | .ok _, .error _ => .isFalse (by intro hc; cases hc)
  | .error _, .ok _ => .isFalse (by intro hc; cases hc)

/-- `algorithms/mod.rs`: an opaque ID used for registration purposes
(`pub struct Id(usize)`). -/
structure Id where
  val : Nat
deriving Repr, DecidableEq

/-- `algorithms/mod.rs`: a `Token` represents an indexed quantity. -/
structure Token where
  index : Nat
  quant : Nat
deriving Repr, DecidableEq

/-- `Token::new(index, quant)`. -/
def Token.new (index quant : Nat) : Token := ⟨index, quant⟩

/-- `Token::get`: this token's quantity. -/
def Token.get (t : Token) : Nat := t.quant

/-- `Token::set(q)`: reduce the quantity to `q`; a no-op if
`q >= self.quant`. -/
def Token.set (t : Token) (q : Nat) : Token :=
  if q < t.quant then { t with quant := q } else t

/-- `bucket.rs`: the lock-protected capacity record
(`index`: time index, `value`: capacity value, `parts`: parts over which
to spread the available capacity). -/
structure Capacity where
  index : Nat
  value : Nat
  parts : Nat
deriving Repr, DecidableEq

/-- `bucket.rs`: a bucket with maximum capacity, id generator and
capacity record (the `Mutex`/`AtomicUsize` wrappers drop out of the
sequential embedding). -/
structure Bucket where
  maximum : Nat
  idgen : Nat
  capacity : Capacity
deriving Repr, DecidableEq

/-- `Bucket::new(capacity)`. -/
def Bucket.new (capacity : Nat) : Bucket :=
  { maximum := capacity
    idgen := 1
    capacity := { index := 0, value := capacity, parts := 0 } }

/-- `Bucket::get(id, hint)`.  The `id` argument is used only for trace
logging in the source and does not affect the result.  Failure returns
`Error::NoCapacity` and leaves the bucket unchanged (the lock guard is
simply dropped). -/
def Bucket.get (b : Bucket) (_id : Id) (hint : Nat) : Except Error (Bucket × Token) :=
  -- no parts => always at full capacity
  if b.capacity.parts = 0 then
    .ok (b, Token.new b.capacity.index b.maximum)
  else
    -- match cap.value / cap.parts { 0 if cap.value > 0 => 1, x => min(x, hint) }
    let quant :=
      if b.capacity.value / b.capacity.parts = 0 ∧ 0 < b.capacity.value then 1
      else min (b.capacity.value / b.capacity.parts) hint
    if quant = 0 then .error .NoCapacity
    else
      .ok ({ b with capacity := { b.capacity with value := b.capacity.value - quant } },
           Token.new b.capacity.index quant)

/-- `Bucket::release(t)`: credit the token's quantity back, unless the
token's time index is stale. -/
def Bucket.release (b : Bucket) (t : Token) : Bucket :=
  if t.index = b.capacity.index then
    { b with capacity := { b.capacity with value := b.capacity.value + t.get } }
  else b

/-- `Bucket::reset(i)`: set the time index to `i` and make the maximum
capacity available again. -/
def Bucket.reset (b : Bucket) (i : Nat) : Bucket :=
  { b with capacity := { b.capacity with index := i, value := b.maximum } }

/-- `Bucket::add_part()`: fail if `parts >= maximum`, else increment
`parts` and hand out a fresh id from the id generator. -/
def Bucket.add_part (b : Bucket) : Except Error (Bucket × Id) :=
  if b.capacity.parts ≥ b.maximum then .error .NoCapacity
  else
    .ok ({ b with
            idgen := b.idgen + 1
            capacity := { b.capacity with parts := b.capacity.parts + 1 } },
         ⟨b.idgen⟩)

/-- `Bucket::remove_part(id)`: decrement `parts` if positive; the id is
not consulted. -/
def Bucket.remove_part (b : Bucket) (_id : Id) : Bucket :=
  if 0 < b.capacity.parts then
    { b with capacity := { b.capacity with parts := b.capacity.parts - 1 } }
  else b

/-- `limiter.rs`: the shared state of a `Limiter` — an `Arc<Bucket>` and
the waiter registry `Arc<Mutex<HashMap<Id, Task>>>`.  The `Task` values
(opaque resumption handles supplied by the scheduler) carry no data the
claims depend on, so the registry is embedded as its key set, a
duplicate-free list of `Id`s. -/
structure LimiterState where
  bucket : Bucket
  tasks : List Id
deriving Repr, DecidableEq

/-- `Limiter::get(id, hint)`: delegates to `Bucket::get`. -/
def Limiter.get (st : LimiterState) (id : Id) (hint : Nat) :
    Except Error Token × LimiterState :=
  match st.bucket.get id hint with
  | .ok (b, t) => (.ok t, { st with bucket := b })
  | .error e => (.error e, st)

/-- `Limiter::release(t)`: delegates to `Bucket::release`. -/
def Limiter.release (st : LimiterState) (t : Token) : LimiterState :=
  { st with bucket := st.bucket.release t }

/-- `Limiter::enqueue(id)`: `self.tasks.lock().insert(id, task::current())`
— record the current task under `id`, replacing any previous entry. -/
def Limiter.enqueue (st : LimiterState) (id : Id) : LimiterState :=
  { st with tasks := id :: st.tasks.filter (fun x => ¬ x = id) }

/-- `Limiter::register()`: delegates to `Bucket::add_part`. -/
def Limiter.register (st : LimiterState) : Except Error Id × LimiterState :=
  match st.bucket.add_part with
  | .ok (b, i) => (.ok i, { st with bucket := b })
  | .error e => (.error e, st)

/-- `Limiter::deregister(id)`: drop any pending waiter entry and delegate
to `Bucket::remove_part`. -/
def Limiter.deregister (st : LimiterState) (id : Id) : LimiterState :=
  { bucket := st.bucket.remove_part id
    tasks := st.tasks.filter (fun x => ¬ x = id) }

/-- `limiter.rs` `timer`, one tick of the interval: reset the bucket to
the next clock index, then drain the task registry, notifying every
entry. -/
def timerTick (clock : Nat) (st : LimiterState) : LimiterState :=
  { bucket := st.bucket.reset clock, tasks := [] }

/-- `limiter.rs` `timer`, the `.map_err(|e| error!("interval error: {}", e))`
arm: when the underlying `Interval` reports an error the closure only
logs it (the source carries a `TODO: Restart on error`); no flag is set
and the `Limiter`'s shared state (bucket and task registry) is left
untouched, so this is the identity on `LimiterState`. -/
def timerOnErr (st : LimiterState) : LimiterState := st

/-- The error type of the wrapper's `io::Result`: `WouldBlock` from the
throttled path, a pass-through of an underlying/limiter `io::Error`
(`ioErr`), or `ErrorKind::Other` wrapping any other limiter error. -/
inductive WriteErr where
  | wouldBlock : WriteErr
  | ioErr : Nat → WriteErr
  | otherErr : WriteErr
deriving Repr, DecidableEq

/-- `limited.rs` `<Limited<T> as io::Write>::write(buf)`.  `L` is
`buf.len()`; the underlying stream's `self.io.write(&buf[0..k])` is the
oracle `uw`, mapping the number of bytes offered to the bytes written or
an error code. -/
def Limited.write (st : LimiterState) (id : Id) (L : Nat)
    (uw : Nat → Except Nat Nat) : Except WriteErr Nat × LimiterState :=
  match Limiter.get st id L with
  | (.ok t, st1) =>
    let n := t.get
    let k := min L n
    match uw k with
    | .error e => (.error (.ioErr e), st1)
    | .ok m => (.ok m, Limiter.release st1 (t.set (n - m)))
  | (.error .NoCapacity, st1) => (.error .wouldBlock, Limiter.enqueue st1 id)
  | (.error (.Io e), st1) => (.error (.ioErr e), st1)
  | (.error _, st1) => (.error .otherErr, st1)

/-- `limited.rs` `<Limited<T> as io::Read>::read(buf)`: textually the
same algorithm as `write`, with the underlying `self.io.read(&mut buf[0..k])`
as the oracle `ur`. -/
def Limited.read (st : LimiterState) (id : Id) (L : Nat)
    (ur : Nat → Except Nat Nat) : Except WriteErr Nat × LimiterState :=
  match Limiter.get st id L with
  | (.ok t, st1) =>
    let n := t.get
    let k := min L n
    match ur k with
    | .error e => (.error (.ioErr e), st1)
    | .ok m => (.ok m, Limiter.release st1 (t.set (n - m)))
  | (.error .NoCapacity, st1) => (.error .wouldBlock, Limiter.enqueue st1 id)
  | (.error (.Io e), st1) => (.error (.ioErr e), st1)
  | (.error _, st1) => (.error .otherErr, st1)

/-- `futures` `Async<()>`, the payload of `Poll<(), io::Error>` returned
by `shutdown`. -/
inductive Async where
  | ready : Async
  | notReady : Async
deriving Repr, DecidableEq

/-- `limited.rs` `<Limited<T> as io::Write>::flush`: `self.io.flush()` —
pure delegation; the limiter is not consulted.  The underlying result is
the oracle `uf`. -/
def Limited.flush (st : LimiterState) (uf : Except Nat Unit) :
    Except Nat Unit × LimiterState :=
  (uf, st)

/-- `limited.rs` `<Limited<T> as AsyncWrite>::shutdown`:
`self.io.shutdown()` — pure delegation; the limiter is not consulted. -/
def Limited.shutdown (st : LimiterState) (us : Except Nat Async) :
    Except Nat Async × LimiterState :=
  (us, st)

/-! ### Trace model: acquire/release sequences against one bucket

Used to state the capacity-conservation invariant.  An outstanding token
is one returned by `Bucket::get` and not yet passed to
`Bucket::release`; a `release i` step releases the `i`-th outstanding
token exactly as it was granted (released at most once, never shrunk,
matching the claim's side conditions). -/

/-- One client-visible call on the bucket: an acquire with some hint, or
the release of the `i`-th outstanding token. -/
inductive SimOp where
  | acquire : Id → Nat → SimOp
  | release : Nat → SimOp
deriving Repr, DecidableEq

/-- A bucket together with the multiset of outstanding tokens. -/
structure SimState where
  bucket : Bucket
  outstanding : List Token
deriving Repr, DecidableEq

/-- Execute one call.  A failed acquire changes nothing; a `release i`
with no `i`-th outstanding token changes nothing. -/
def simStep (s : SimState) : SimOp → SimState
  | .acquire id hint =>
    match s.bucket.get id hint with
    | .ok (b, t) => { bucket := b, outstanding := t :: s.outstanding }
    | .error _ => s
  | .release i =>
    match s.outstanding[i]? with
    | some t => { bucket := s.bucket.release t, outstanding := s.outstanding.eraseIdx i }
    | none => s

/-- Execute a sequence of calls. -/
def simRun (s : SimState) (ops : List SimOp) : SimState :=
  ops.foldl simStep s

/-- Sum of the outstanding token quantities. -/
def outSum (s : SimState) : Nat :=
  (s.outstanding.map Token.quant).sum

/-- The conservation invariant of one generation: at least one part is
registered, `remaining + Σ outstanding = maximum`, and every outstanding
token carries the current time index. -/
def SimInv (s : SimState) : Prop :=
  1 ≤ s.bucket.capacity.parts
  ∧ s.bucket.capacity.value + outSum s = s.bucket.maximum
  ∧ ∀ t ∈ s.outstanding, t.index = s.bucket.capacity.index

instance (s : SimState) : Decidable (SimInv s) := by
  unfold SimInv; infer_instance

/-! ### Trace model: full bucket histories, for id freshness -/

/-- Any call on a bucket. -/
inductive BOp where
  | acquire : Id → Nat → BOp
  | release : Token → BOp
  | reset : Nat → BOp
  | addPart : BOp
  | removePart : Id → BOp
deriving Repr, DecidableEq

/-- Execute one call, also reporting the `Id` issued when the call was a
successful `add_part`. -/
def bstep (b : Bucket) : BOp → Bucket × Option Id
  | .acquire id hint =>
    match b.get id hint with
    | .ok (b', _) => (b', none)
    | .error _ => (b, none)
  | .release t => (b.release t, none)
  | .reset i => (b.reset i, none)
  | .addPart =>
    match b.add_part with
    | .ok (b', i) => (b', some i)
    | .error _ => (b, none)
  | .removePart id => (b.remove_part id, none)

/-- Execute a history, collecting every issued `Id` in order. -/
def brun (b : Bucket) : List BOp → Bucket × List Id
  | [] => (b, [])
  | op :: ops =>
    let s := bstep b op
    let r := brun s.1 ops
    (r.1, s.2.toList ++ r.2)

/-- Iterate `Bucket::add_part` `n` times, stopping at the first failure. -/
def addLoop (b : Bucket) : Nat → Except Error Bucket
  | 0 => .ok b
  | n + 1 =>
    match b.add_part with
    | .ok (b', _) => addLoop b' n
    | .error e => .error e

/-! ## Helper lemmas -/

/-- A successful `get` never touches `maximum`, `idgen`, the time index
or the parts counter. -/
lemma get_ok_preserves (b : Bucket) (id : Id) (hint : Nat) (b' : Bucket) (t : Token)
    (h : b.get id hint = .ok (b', t)) :
    b'.maximum = b.maximum ∧ b'.idgen = b.idgen
    ∧ b'.capacity.index = b.capacity.index
    ∧ b'.capacity.parts = b.capacity.parts
    ∧ t.index = b.capacity.index := by
  by_cases hp0 : b.capacity.parts = 0
  · simp [Bucket.get, hp0, Token.new] at h
    obtain ⟨hb, ht⟩ := h
    subst hb; subst ht
    exact ⟨rfl, rfl, rfl, rfl, rfl⟩
  · by_cases hc : b.capacity.value / b.capacity.parts = 0 ∧ 0 < b.capacity.value
    · simp [Bucket.get, hp0, hc, Token.new] at h
      obtain ⟨hb, ht⟩ := h
      subst hb; subst ht
      exact ⟨rfl, rfl, rfl, rfl, rfl⟩
    · by_cases hm : min (b.capacity.value / b.capacity.parts) hint = 0
      · simp [Bucket.get, hp0, hc, hm] at h
      · simp [Bucket.get, hp0, hc, hm, Token.new] at h
        obtain ⟨hb, ht⟩ := h
        subst hb; subst ht
        exact ⟨rfl, rfl, rfl, rfl, rfl⟩

/-- When at least one part is registered, a successful `get` moves
exactly the granted quantity from `value` into the token. -/
lemma get_ok_conserves (b : Bucket) (id : Id) (hint : Nat) (b' : Bucket) (t : Token)
    (hp : 1 ≤ b.capacity.parts) (h : b.get id hint = .ok (b', t)) :
    b'.capacity.value + t.quant = b.capacity.value := by
  have hp0 : ¬ b.capacity.parts = 0 := by omega
  by_cases hc : b.capacity.value / b.capacity.parts = 0 ∧ 0 < b.capacity.value
  · simp [Bucket.get, hp0, hc, Token.new] at h
    obtain ⟨hb, ht⟩ := h
    subst hb; subst ht
    simp
    omega
  · by_cases hm : min (b.capacity.value / b.capacity.parts) hint = 0
    · simp [Bucket.get, hp0, hc, hm] at h
    · simp [Bucket.get, hp0, hc, hm, Token.new] at h
      obtain ⟨hb, ht⟩ := h
      subst hb; subst ht
      simp
      have : min (b.capacity.value / b.capacity.parts) hint ≤ b.capacity.value :=
        le_trans (min_le_left _ _) (Nat.div_le_self _ _)
      omega

/-- `bstep` never decreases the id generator, and when it reports an
issued id, that id is the pre-state's generator value and the generator
advances past it. -/
lemma bstep_idgen (b : Bucket) (op : BOp) :
    b.idgen ≤ (bstep b op).1.idgen
    ∧ ((bstep b op).2 = none
        ∨ ((bstep b op).2 = some ⟨b.idgen⟩ ∧ (bstep b op).1.idgen = b.idgen + 1)) := by
  cases op with
  | acquire id hint =>
    cases hres : b.get id hint with
    | ok p =>
      have := get_ok_preserves b id hint p.1 p.2 (by rw [hres])
      simp [bstep, hres]
      omega
    | error e => simp [bstep, hres]
  | release t => simp [bstep, Bucket.release]; split <;> simp
  | reset i => simp [bstep, Bucket.reset]
  | addPart =>
    by_cases hge : b.capacity.parts ≥ b.maximum
    · simp [bstep, Bucket.add_part, hge]
    · simp [bstep, Bucket.add_part, hge]
  | removePart id => simp [bstep, Bucket.remove_part]; split <;> simp

/-- Every id issued along a history is at least the starting generator
value, and the issued ids are pairwise distinct. -/
lemma brun_ids_fresh (ops : List BOp) : ∀ b : Bucket,
    (∀ i ∈ (brun b ops).2, b.idgen ≤ i.val) ∧ ((brun b ops).2).Nodup := by
  induction ops with
  | nil => intro b; simp [brun]
  | cons op ops ih =>
    intro b
    obtain ⟨hmono, hissue⟩ := bstep_idgen b op
    obtain ⟨ihmem, ihnd⟩ := ih (bstep b op).1
    cases hissue with
    | inl hnone =>
      constructor
      · intro i hi
        simp [brun, hnone] at hi
        exact le_trans hmono (ihmem i hi)
      · simp [brun, hnone]
        exact ihnd
    | inr hsome =>
      obtain ⟨hid, hadv⟩ := hsome
      constructor
      · intro i hi
        simp [brun, hid] at hi
        cases hi with
        | inl h => subst h; exact le_refl _
        | inr h => exact le_trans hmono (ihmem i h)
      · simp [brun, hid]
        refine ⟨?_, ihnd⟩
        intro hmem
        have := ihmem _ hmem
        simp [hadv] at this

/-- Removing the `i`-th element removes exactly its quantity from the
sum. -/
lemma sum_quant_eraseIdx (l : List Token) : ∀ (i : Nat) (t : Token),
    l[i]? = some t →
    ((l.eraseIdx i).map Token.quant).sum + t.quant = (l.map Token.quant).sum := by
  induction l with
  | nil => intro i t h; simp at h
  | cons a as ih =>
    intro i t h
    cases i with
    | zero =>
      simp at h
      subst h
      simp
      omega
    | succ i =>
      simp at h
      have := ih i t h
      simp
      omega

/-- One acquire or release call preserves the conservation invariant. -/
lemma simStep_inv (s : SimState) (op : SimOp) (h : SimInv s) :
    SimInv (simStep s op) := by
  obtain ⟨hp, hsum, hidx⟩ := h
  cases op with
  | acquire id hint =>
    cases hres : s.bucket.get id hint with
    | error e => simpa [simStep, hres] using ⟨hp, hsum, hidx⟩
    | ok p =>
      obtain ⟨hmax, hig, hix, hpp, htix⟩ :=
        get_ok_preserves s.bucket id hint p.1 p.2 (by rw [hres])
      have hcons := get_ok_conserves s.bucket id hint p.1 p.2 hp (by rw [hres])
      simp only [simStep, hres]
      refine ⟨?_, ?_, ?_⟩
      · rw [hpp]; exact hp
      · simp only [outSum] at hsum ⊢
        simp only [List.map_cons, List.sum_cons]
        omega
      · intro t' ht'
        rcases List.mem_cons.mp ht' with h' | h'
        · subst h'; rw [htix, hix]
        · rw [hidx t' h', hix]
  | release i =>
    cases hget : s.outstanding[i]? with
    | none => simpa [simStep, hget] using ⟨hp, hsum, hidx⟩
    | some t =>
      have htmem : t ∈ s.outstanding := List.getElem?_mem hget
      have htix : t.index = s.bucket.capacity.index := hidx t htmem
      have hsume := sum_quant_eraseIdx s.outstanding i t hget
      simp only [simStep, hget]
      refine ⟨?_, ?_, ?_⟩
      · simpa [Bucket.release, htix] using hp
      · simp only [outSum] at hsum ⊢
        simp [Bucket.release, htix, Token.get]
        omega
      · intro t' ht'
        have h' : t' ∈ s.outstanding := List.eraseIdx_subset _ _ ht'
        rw [hidx t' h']
        simp [Bucket.release, htix]

/-- A whole acquire/release history preserves the conservation
invariant. -/
lemma simRun_inv (ops : List SimOp) : ∀ s, SimInv s → SimInv (simRun s ops) := by
  induction ops with
  | nil => intro s h; simpa [simRun] using h
  | cons op ops ih =>
    intro s h
    simpa [simRun] using ih (simStep s op) (simStep_inv s op h)

/-! ## Theorems -/

/-- Claim C1: for every bucket state, id and hint — if `parts = 0`,
`get` succeeds with quantity `maximum` regardless of the hint; if
`parts ≥ 1`, with `share = remaining / parts`, `get` grants `1` when
`share = 0` and `remaining > 0`, grants `min share hint` when
`share ≥ 1` (and that min is nonzero), and fails with `NoCapacity`
whenever the quantity so computed is `0`.  In particular with
`maximum = 100`, `parts = 4`, `remaining = 100`, `get id 30` grants
`25`. -/
theorem bucket_get_grant_cases (b : Bucket) (id : Id) (hint : Nat) :
    (b.capacity.parts = 0 →
      b.get id hint = .ok (b, Token.new b.capacity.index b.maximum))
    ∧ (1 ≤ b.capacity.parts →
        (b.capacity.value / b.capacity.parts = 0 → 0 < b.capacity.value →
          b.get id hint =
            .ok ({ b with capacity := { b.capacity with value := b.capacity.value - 1 } },
                 Token.new b.capacity.index 1))
        ∧ (1 ≤ b.capacity.value / b.capacity.parts →
            1 ≤ min (b.capacity.value / b.capacity.parts) hint →
            b.get id hint =
              .ok ({ b with capacity :=
                      { b.capacity with
                          value := b.capacity.value
                            - min (b.capacity.value / b.capacity.parts) hint } },
                   Token.new b.capacity.index
                     (min (b.capacity.value / b.capacity.parts) hint)))
        ∧ ((if b.capacity.value / b.capacity.parts = 0 ∧ 0 < b.capacity.value then 1
            else min (b.capacity.value / b.capacity.parts) hint) = 0 →
            b.get id hint = .error .NoCapacity))
    ∧ Bucket.get ⟨100, 1, ⟨0, 100, 4⟩⟩ id 30 =
        .ok (⟨100, 1, ⟨0, 75, 4⟩⟩, ⟨0, 25⟩) := by
  refine ⟨?_, ?_, by simp [Bucket.get, Token.new]⟩
  · intro h0
    simp [Bucket.get, h0]
  · intro hp
    have hp0 : ¬ b.capacity.parts = 0 := by omega
    refine ⟨?_, ?_, ?_⟩
    · intro hs hv
      simp [Bucket.get, hp0, hs, hv]
    · intro hs hm
      have hc : ¬ (b.capacity.value / b.capacity.parts = 0 ∧ 0 < b.capacity.value) := by
        omega
      have hm0 : ¬ min (b.capacity.value / b.capacity.parts) hint = 0 := by omega
      simp [Bucket.get, hp0, hc, hm0]
    · intro hq
      simp only [Bucket.get, hp0, ite_false, if_neg]
      simp [hq]

/-- Witness for C1: the `parts ≥ 1`, `share ≥ 1` branch evaluated at
`maximum = 100`, `parts = 4`, `remaining = 100`, `hint = 30`. -/
theorem bucket_get_grant_cases_witness :
    (1 ≤ (Bucket.mk 100 1 ⟨0, 100, 4⟩).capacity.parts
      ∧ 1 ≤ (Bucket.mk 100 1 ⟨0, 100, 4⟩).capacity.value
            / (Bucket.mk 100 1 ⟨0, 100, 4⟩).capacity.parts)
    ∧ Bucket.get ⟨100, 1, ⟨0, 100, 4⟩⟩ ⟨1⟩ 30 = .ok (⟨100, 1, ⟨0, 75, 4⟩⟩, ⟨0, 25⟩) :=
  ⟨⟨by decide, by decide⟩,
    by
      have h := ((bucket_get_grant_cases ⟨100, 1, ⟨0, 100, 4⟩⟩ ⟨1⟩ 30).2.1
        (by decide)).2.1 (by decide) (by decide)
      simpa [Token.new] using h⟩

/-- Counterexample to C3 as stated ("for every bucket state, every id,
and every hint, a successful acquire returns quantity ≤ hint and
≤ remaining").  Two concrete violations of the hint bound: with
`parts = 0` the full `maximum = 100` is granted against `hint = 40`,
and with `parts = 2`, `remaining = 1`, the minimum-progress floor grants
`1` against `hint = 0`. -/
theorem get_hint_bound_counterexample :
    Bucket.get ⟨100, 1, ⟨0, 100, 0⟩⟩ ⟨1⟩ 40 =
      .ok (⟨100, 1, ⟨0, 100, 0⟩⟩, ⟨0, 100⟩)
    ∧ ¬ (100 : Nat) ≤ 40
    ∧ Bucket.get ⟨10, 1, ⟨0, 1, 2⟩⟩ ⟨1⟩ 0 = .ok (⟨10, 1, ⟨0, 0, 2⟩⟩, ⟨0, 1⟩)
    ∧ ¬ (1 : Nat) ≤ 0 := by
  refine ⟨by decide, by decide, by decide, by decide⟩

/-- Claim C3, amended: for every bucket state with `parts ≥ 1`, every id
and every `hint ≥ 1`, a successful `get` returns a token whose quantity
is at most `hint` and at most the remaining capacity at call time. -/
theorem get_quantity_bounds (b : Bucket) (id : Id) (hint : Nat) (b' : Bucket)
    (t : Token) (hp : 1 ≤ b.capacity.parts) (hh : 1 ≤ hint)
    (h : b.get id hint = .ok (b', t)) :
    t.quant ≤ hint ∧ t.quant ≤ b.capacity.value := by
  have hp0 : ¬ b.capacity.parts = 0 := by omega
  by_cases hc : b.capacity.value / b.capacity.parts = 0 ∧ 0 < b.capacity.value
  · simp [Bucket.get, hp0, hc, Token.new] at h
    obtain ⟨-, ht⟩ := h
    subst ht
    exact ⟨hh, hc.2⟩
  · by_cases hm : min (b.capacity.value / b.capacity.parts) hint = 0
    · simp [Bucket.get, hp0, hc, hm] at h
    · simp [Bucket.get, hp0, hc, hm, Token.new] at h
      obtain ⟨-, ht⟩ := h
      subst ht
      exact ⟨min_le_right _ _,
        le_trans (min_le_left _ _) (Nat.div_le_self _ _)⟩

/-- Witness for C3 (amended): evaluated at `maximum = 100`, `parts = 4`,
`remaining = 100`, `hint = 30`, where the granted quantity is `25`. -/
theorem get_quantity_bounds_witness :
    (25 : Nat) ≤ 30 ∧ (25 : Nat) ≤ (Bucket.mk 100 1 ⟨0, 100, 4⟩).capacity.value :=
  get_quantity_bounds ⟨100, 1, ⟨0, 100, 4⟩⟩ ⟨1⟩ 30 ⟨100, 1, ⟨0, 75, 4⟩⟩ ⟨0, 25⟩
    (by decide) (by decide) (by decide)

/-- Counterexample to C6 as stated ("from `remaining = 3`, `parts = 5`,
five sequential acquires each return quantity 1 and the sixth fails").
Running the acquires concretely (hint `1`, in a bucket with
`maximum = 10`), the fourth of those five calls already fails with
`NoCapacity`: only three units exist, so five grants of `1` are
impossible. -/
theorem scenario4_counterexample :
    Bucket.get ⟨10, 1, ⟨0, 3, 5⟩⟩ ⟨1⟩ 1 = .ok (⟨10, 1, ⟨0, 2, 5⟩⟩, ⟨0, 1⟩)
    ∧ Bucket.get ⟨10, 1, ⟨0, 2, 5⟩⟩ ⟨1⟩ 1 = .ok (⟨10, 1, ⟨0, 1, 5⟩⟩, ⟨0, 1⟩)
    ∧ Bucket.get ⟨10, 1, ⟨0, 1, 5⟩⟩ ⟨1⟩ 1 = .ok (⟨10, 1, ⟨0, 0, 5⟩⟩, ⟨0, 1⟩)
    ∧ Bucket.get ⟨10, 1, ⟨0, 0, 5⟩⟩ ⟨1⟩ 1 = .error .NoCapacity := by
  refine ⟨by decide, by decide, by decide, by decide⟩

/-- Claim C6, amended: starting from `remaining = 3`, `parts = 5` (in a
bucket of `maximum = 10`), within the same generation three sequential
acquires each return a token of quantity `1` — whatever hints are
supplied — and the fourth fails with `NoCapacity`. -/
theorem three_acquires_then_nocapacity (id : Id) (h1 h2 h3 h4 : Nat) :
    Bucket.get ⟨10, 1, ⟨0, 3, 5⟩⟩ id h1 = .ok (⟨10, 1, ⟨0, 2, 5⟩⟩, ⟨0, 1⟩)
    ∧ Bucket.get ⟨10, 1, ⟨0, 2, 5⟩⟩ id h2 = .ok (⟨10, 1, ⟨0, 1, 5⟩⟩, ⟨0, 1⟩)
    ∧ Bucket.get ⟨10, 1, ⟨0, 1, 5⟩⟩ id h3 = .ok (⟨10, 1, ⟨0, 0, 5⟩⟩, ⟨0, 1⟩)
    ∧ Bucket.get ⟨10, 1, ⟨0, 0, 5⟩⟩ id h4 = .error .NoCapacity := by
  refine ⟨?_, ?_, ?_, ?_⟩ <;> simp [Bucket.get, Token.new]

/-- Counterexample to C7 as stated ("for every state with
`parts ≤ maximum` and `remaining > 0`, and every hint, acquire succeeds
with quantity ≥ 1").  With `maximum = 100`, `parts = 4 ≤ 100`,
`remaining = 100 > 0` but `hint = 0`, the grant `min(25, 0) = 0` fails
with `NoCapacity`; and with `maximum = 0`, `parts = 0 ≤ 0`,
`remaining = 1 > 0`, `hint = 1`, the `parts = 0` fast path succeeds but
returns quantity `0`. -/
theorem acquire_progress_counterexample :
    Bucket.get ⟨100, 1, ⟨0, 100, 4⟩⟩ ⟨1⟩ 0 = .error .NoCapacity
    ∧ Bucket.get ⟨0, 1, ⟨0, 1, 0⟩⟩ ⟨1⟩ 1 = .ok (⟨0, 1, ⟨0, 1, 0⟩⟩, ⟨0, 0⟩)
    ∧ ¬ (1 : Nat) ≤ (0 : Nat) := by
  refine ⟨by decide, by decide, by decide⟩

/-- Claim C7, amended: for every bucket state with `parts ≤ maximum`,
`maximum ≥ 1` and `remaining > 0`, and every id and `hint ≥ 1`,
`get id hint` succeeds and returns a token of quantity at least `1`. -/
theorem acquire_progress (b : Bucket) (id : Id) (hint : Nat)
    (_hpm : b.capacity.parts ≤ b.maximum) (hm : 1 ≤ b.maximum)
    (hv : 0 < b.capacity.value) (hh : 1 ≤ hint) :
    ∃ b' t, b.get id hint = .ok (b', t) ∧ 1 ≤ t.quant := by
  by_cases hp0 : b.capacity.parts = 0
  · exact ⟨b, Token.new b.capacity.index b.maximum, by simp [Bucket.get, hp0], hm⟩
  · by_cases hc : b.capacity.value / b.capacity.parts = 0 ∧ 0 < b.capacity.value
    · refine ⟨{ b with capacity := { b.capacity with value := b.capacity.value - 1 } },
        Token.new b.capacity.index 1, ?_, le_refl 1⟩
      simp [Bucket.get, hp0, hc]
    · have hs : 1 ≤ b.capacity.value / b.capacity.parts := by
        rcases Nat.eq_zero_or_pos (b.capacity.value / b.capacity.parts) with h | h
        · exact absurd ⟨h, hv⟩ hc
        · exact h
      have hm1 : 1 ≤ min (b.capacity.value / b.capacity.parts) hint :=
        le_min hs hh
      have hm0 : ¬ min (b.capacity.value / b.capacity.parts) hint = 0 := by
        omega
      refine ⟨{ b with capacity :=
          { b.capacity with
              value := b.capacity.value - min (b.capacity.value / b.capacity.parts) hint } },
        Token.new b.capacity.index (min (b.capacity.value / b.capacity.parts) hint),
        ?_, hm1⟩
      simp [Bucket.get, hp0, hc, hm0]

/-- Witness for C7 (amended): evaluated at `maximum = 100`, `parts = 4`,
`remaining = 100`, `hint = 30`. -/
theorem acquire_progress_witness :
    ∃ b' t, Bucket.get ⟨100, 1, ⟨0, 100, 4⟩⟩ ⟨1⟩ 30 = .ok (b', t) ∧ 1 ≤ t.quant :=
  acquire_progress ⟨100, 1, ⟨0, 100, 4⟩⟩ ⟨1⟩ 30 (by decide) (by decide)
    (by decide) (by decide)

/-- Claim C8: `release` credits exactly `t.quant` to remaining when the
token's generation matches the bucket's current generation, leaves the
bucket entirely unchanged when it does not, and in particular a token
granted at generation `g` and released after a `reset` to `g + 1`
changes nothing. -/
theorem release_generation_spec (b : Bucket) (t : Token) :
    (t.index = b.capacity.index →
      b.release t =
        { b with capacity := { b.capacity with value := b.capacity.value + t.quant } })
    ∧ (¬ t.index = b.capacity.index → b.release t = b)
    ∧ (∀ g q, (Bucket.reset b (g + 1)).release ⟨g, q⟩ = Bucket.reset b (g + 1)) := by
  refine ⟨?_, ?_, ?_⟩
  · intro h
    simp [Bucket.release, h, Token.get]
  · intro h
    simp [Bucket.release, h]
  · intro g q
    have hne : ¬ g = (Bucket.reset b (g + 1)).capacity.index := by
      simp [Bucket.reset]
    simp [Bucket.release, hne]

/-- Witness for C8: a matching-generation release credits `3` back, and
a stale token (generation `0` against current generation `1`) changes
nothing. -/
theorem release_generation_spec_witness :
    ((⟨0, 3⟩ : Token).index = (Bucket.mk 10 1 ⟨0, 5, 2⟩).capacity.index
      ∧ Bucket.release ⟨10, 1, ⟨0, 5, 2⟩⟩ ⟨0, 3⟩ = ⟨10, 1, ⟨0, 8, 2⟩⟩)
    ∧ (¬ (⟨0, 3⟩ : Token).index = (Bucket.mk 10 1 ⟨1, 5, 2⟩).capacity.index
      ∧ Bucket.release ⟨10, 1, ⟨1, 5, 2⟩⟩ ⟨0, 3⟩ = ⟨10, 1, ⟨1, 5, 2⟩⟩) :=
  ⟨⟨by decide,
    by
      have h := (release_generation_spec ⟨10, 1, ⟨0, 5, 2⟩⟩ ⟨0, 3⟩).1 (by decide)
      simpa using h⟩,
   ⟨by decide,
    by
      have h := (release_generation_spec ⟨10, 1, ⟨1, 5, 2⟩⟩ ⟨0, 3⟩).2.1 (by decide)
      simpa using h⟩⟩

/-- Claim C9: `add_part` fails with `NoCapacity` iff `parts ≥ maximum`;
otherwise it increments `parts` by exactly one and hands out a fresh id
— the ids issued along any history of bucket calls are pairwise
distinct.  In particular with `maximum = 10`, ten `add_part` calls from
a fresh bucket all succeed (reaching `parts = 10`) and the eleventh
fails with `NoCapacity`. -/
theorem add_part_spec (b : Bucket) :
    (b.add_part = .error .NoCapacity ↔ b.maximum ≤ b.capacity.parts)
    ∧ (b.capacity.parts < b.maximum →
        b.add_part =
          .ok ({ b with
                  idgen := b.idgen + 1
                  capacity := { b.capacity with parts := b.capacity.parts + 1 } },
               ⟨b.idgen⟩))
    ∧ (∀ ops : List BOp, ((brun b ops).2).Nodup)
    ∧ addLoop (Bucket.new 10) 10 = .ok ⟨10, 11, ⟨0, 10, 10⟩⟩
    ∧ addLoop (Bucket.new 10) 11 = .error .NoCapacity := by
  refine ⟨?_, ?_, fun ops => (brun_ids_fresh ops b).2, by decide, by decide⟩
  · by_cases hge : b.capacity.parts ≥ b.maximum
    · simp [Bucket.add_part, hge]
    · simp [Bucket.add_part, hge]
  · intro hlt
    have hge : ¬ b.capacity.parts ≥ b.maximum := by omega
    simp [Bucket.add_part, hge]

/-- Witness for C9: the successful branch at a fresh bucket of
`maximum = 10` — `parts` goes from `0` to `1` and the first id issued is
`1`. -/
theorem add_part_spec_witness :
    (Bucket.new 10).capacity.parts < (Bucket.new 10).maximum
    ∧ (Bucket.new 10).add_part = .ok (⟨10, 2, ⟨0, 10, 1⟩⟩, ⟨1⟩) :=
  ⟨by decide, (add_part_spec (Bucket.new 10)).2.1 (by decide)⟩

/-- Counterexample to C2 as stated (conservation from a *fresh* bucket,
where `parts = 0`).  The `parts = 0` fast path of `get` grants the full
`maximum` without deducting it, so after one acquire on a fresh bucket
of `maximum = 100` we have `remaining + Σ outstanding = 200 ≠ 100`, and
after releasing that token `remaining = 200 > maximum`. -/
theorem conservation_counterexample :
    (simRun ⟨Bucket.new 100, []⟩ [.acquire ⟨1⟩ 40]).bucket.capacity.value
        + outSum (simRun ⟨Bucket.new 100, []⟩ [.acquire ⟨1⟩ 40]) = 200
    ∧ ¬ (200 : Nat) = (Bucket.new 100).maximum
    ∧ (simRun ⟨Bucket.new 100, []⟩
        [.acquire ⟨1⟩ 40, .release 0]).bucket.capacity.value = 200
    ∧ (Bucket.new 100).maximum < 200 := by
  refine ⟨by decide, by decide, by decide, by decide⟩

/-- Claim C2, amended: within a single generation, for every sequence of
acquire and release calls starting from a state with at least one
registered part (e.g. a fresh bucket after one successful `add_part`),
where each granted token is released at most once and is not shrunk, the
invariant `remaining + Σ outstanding = maximum` holds after every call;
in particular remaining never exceeds `maximum`. -/
theorem conservation_invariant :
    (∀ (s : SimState) (ops : List SimOp), SimInv s →
      SimInv (simRun s ops)
      ∧ (simRun s ops).bucket.capacity.value + outSum (simRun s ops)
          = (simRun s ops).bucket.maximum
      ∧ (simRun s ops).bucket.capacity.value ≤ (simRun s ops).bucket.maximum)
    ∧ (∀ (m : Nat) (b1 : Bucket) (i : Id),
        Bucket.add_part (Bucket.new m) = .ok (b1, i) → SimInv ⟨b1, []⟩) := by
  constructor
  · intro s ops h
    have hinv := simRun_inv ops s h
    refine ⟨hinv, hinv.2.1, ?_⟩
    have := hinv.2.1
    omega
  · intro m b1 i h
    rcases Nat.eq_zero_or_pos m with hm | hm
    · subst hm
      simp [Bucket.add_part, Bucket.new] at h
    · have hcond : ¬ (Bucket.new m).capacity.parts ≥ (Bucket.new m).maximum := by
        show ¬ 0 ≥ m
        omega
      unfold Bucket.add_part at h
      rw [if_neg hcond] at h
      simp only [Except.ok.injEq, Prod.mk.injEq] at h
      obtain ⟨hb, -⟩ := h
      refine ⟨?_, ?_, ?_⟩ <;> simp [← hb, outSum, Bucket.new]

/-- Witness for C2 (amended): a fresh bucket of `maximum = 100` after
one registration, running an acquire (granting 25) followed by the
release of that token. -/
theorem conservation_invariant_witness :
    SimInv ⟨⟨100, 2, ⟨0, 100, 1⟩⟩, []⟩
    ∧ SimInv (simRun ⟨⟨100, 2, ⟨0, 100, 1⟩⟩, []⟩ [.acquire ⟨1⟩ 30, .release 0])
    ∧ (simRun ⟨⟨100, 2, ⟨0, 100, 1⟩⟩, []⟩
        [.acquire ⟨1⟩ 30, .release 0]).bucket.capacity.value
        ≤ (simRun ⟨⟨100, 2, ⟨0, 100, 1⟩⟩, []⟩
            [.acquire ⟨1⟩ 30, .release 0]).bucket.maximum :=
  ⟨by decide,
   (conservation_invariant.1 ⟨⟨100, 2, ⟨0, 100, 1⟩⟩, []⟩
      [.acquire ⟨1⟩ 30, .release 0] (by decide)).1,
   (conservation_invariant.1 ⟨⟨100, 2, ⟨0, 100, 1⟩⟩, []⟩
      [.acquire ⟨1⟩ 30, .release 0] (by decide)).2.2⟩

/-- Shrinking a token to "whatever was not consumed":
`t.set (t.quant - m)` yields exactly the token with quantity
`t.quant - m`, provided `m ≤ t.quant`. -/
lemma token_set_sub (t : Token) (m : Nat) (hm : m ≤ t.quant) :
    t.set (t.quant - m) = ⟨t.index, t.quant - m⟩ := by
  unfold Token.set
  by_cases hlt : t.quant - m < t.quant
  · simp [hlt]
  · rw [if_neg hlt]
    have h0 : t.quant - m = t.quant := by omega
    rw [h0]

/-- Claim C4: for a requested wrapper write (or read) of length `L`
whose acquire succeeds with a token of quantity `N = t.quant`: the
underlying operation is consulted on exactly `min L N` bytes (the result
depends on the oracle only at that argument); if it succeeds
transferring `M ≤ min L N` bytes, the token shrunk to `N - M` is
released back to the bucket and the wrapper returns `M`; if it fails,
the error is propagated unchanged and the post-acquire bucket `b` is
kept as is — the token is not released.  `read` is the very same
function as `write`. -/
theorem limited_rw_token_accounting (st : LimiterState) (id : Id) (L : Nat)
    (uw : Nat → Except Nat Nat) (b : Bucket) (t : Token)
    (h : st.bucket.get id L = .ok (b, t)) :
    ((∀ uw2 : Nat → Except Nat Nat, uw2 (min L t.quant) = uw (min L t.quant) →
        Limited.write st id L uw2 = Limited.write st id L uw)
      ∧ (∀ m, m ≤ min L t.quant → uw (min L t.quant) = .ok m →
          Limited.write st id L uw =
            (.ok m, { st with bucket := b.release ⟨t.index, t.quant - m⟩ }))
      ∧ (∀ e, uw (min L t.quant) = .error e →
          Limited.write st id L uw = (.error (.ioErr e), { st with bucket := b })))
    ∧ Limited.read st id L uw = Limited.write st id L uw := by
  have hlim : Limiter.get st id L = (.ok t, { st with bucket := b }) := by
    simp [Limiter.get, h]
  refine ⟨⟨?_, ?_, ?_⟩, rfl⟩
  · intro uw2 he
    simp [Limited.write, hlim, Token.get, he]
  · intro m hm huw
    have hset := token_set_sub t m (le_trans hm (min_le_right _ _))
    simp [Limited.write, hlim, Token.get, huw, Limiter.release, hset]
  · intro e huw
    simp [Limited.write, hlim, Token.get, huw]

/-- Witness for C4: `maximum = 100`, `parts = 4`, `remaining = 100`,
a write request of `L = 30` (token quantity 25) whose underlying write
accepts 10 bytes; 15 units are credited back, leaving `remaining = 90`. -/
theorem limited_rw_token_accounting_witness :
    (Bucket.mk 100 1 ⟨0, 100, 4⟩).get ⟨1⟩ 30 =
      .ok (⟨100, 1, ⟨0, 75, 4⟩⟩, ⟨0, 25⟩)
    ∧ Limited.write ⟨⟨100, 1, ⟨0, 100, 4⟩⟩, []⟩ ⟨1⟩ 30 (fun _ => .ok 10) =
        (.ok 10, ⟨⟨100, 1, ⟨0, 90, 4⟩⟩, []⟩) :=
  ⟨by decide,
   by
     have hres := ((limited_rw_token_accounting ⟨⟨100, 1, ⟨0, 100, 4⟩⟩, []⟩ ⟨1⟩ 30
        (fun _ => .ok 10) ⟨100, 1, ⟨0, 75, 4⟩⟩ ⟨0, 25⟩ (by decide)).1.2.1) 10
        (by decide) (by decide)
     simpa [Bucket.release] using hres⟩

/-- Does this error value read back as `TimerError`? -/
def isTimerErr : Error → Bool
  | .TimerError => true
  | _ => false

/-- Does this operation result carry `TimerError`? -/
def exceptTimerErr {α : Type} : Except Error α → Bool
  | .error e => isTimerErr e
  | .ok _ => false

/-- `Bucket::get` either succeeds or fails with `NoCapacity` — no other
error is ever produced. -/
lemma bucket_get_errors (b : Bucket) (id : Id) (hint : Nat) :
    (∃ p, b.get id hint = .ok p) ∨ b.get id hint = .error .NoCapacity := by
  cases hres : b.get id hint with
  | ok p => exact .inl ⟨p, rfl⟩
  | error e =>
    refine .inr ?_
    by_cases hp0 : b.capacity.parts = 0
    · simp [Bucket.get, hp0] at hres
    · by_cases hc : b.capacity.value / b.capacity.parts = 0 ∧ 0 < b.capacity.value
      · simp [Bucket.get, hp0, hc] at hres
      · by_cases hm : min (b.capacity.value / b.capacity.parts) hint = 0
        · simp [Bucket.get, hp0, hc, hm] at hres
          simp [hres]
        · simp [Bucket.get, hp0, hc, hm] at hres

/-- `Bucket::add_part` either succeeds or fails with `NoCapacity`. -/
lemma bucket_add_part_errors (b : Bucket) :
    (∃ p, b.add_part = .ok p) ∨ b.add_part = .error .NoCapacity := by
  cases hres : b.add_part with
  | ok p => exact .inl ⟨p, rfl⟩
  | error e =>
    refine .inr ?_
    by_cases hge : b.capacity.parts ≥ b.maximum
    · simp [Bucket.add_part, hge] at hres
      simp [hres]
    · simp [Bucket.add_part, hge] at hres

/-- Counterexample to C5 as stated ("after the clock task's underlying
mechanism fails, every subsequent Limiter operation fails with
`TimerError`").  Running the timer's error arm on a fresh limiter of
capacity 10 and then operating on it: `register` succeeds with id `1`,
`get` succeeds with a full-capacity token, and `enqueue` records the
waiter — none of them returns `TimerError`. -/
theorem timer_fault_counterexample :
    (Limiter.register (timerOnErr ⟨Bucket.new 10, []⟩)).1 = .ok ⟨1⟩
    ∧ ¬ (Limiter.register (timerOnErr ⟨Bucket.new 10, []⟩)).1 = .error .TimerError
    ∧ (Limiter.get (timerOnErr ⟨Bucket.new 10, []⟩) ⟨1⟩ 5).1 = .ok ⟨0, 10⟩
    ∧ Limiter.enqueue (timerOnErr ⟨Bucket.new 10, []⟩) ⟨1⟩ =
        ⟨Bucket.new 10, [⟨1⟩]⟩ := by
  refine ⟨by decide, by decide, by decide, by decide⟩

/-- Claim C5, amended: when the periodic clock task's underlying
scheduling mechanism reports a failure, the error is merely logged (the
source notes `TODO: Restart on error`): no fault flag exists, the
limiter's shared state is untouched, every subsequent operation
(`register`, `get`, `enqueue`) behaves exactly as before the failure,
and in fact no limiter operation ever produces `TimerError`. -/
theorem timer_no_fault_flag (st : LimiterState) (id : Id) (hint : Nat) :
    timerOnErr st = st
    ∧ Limiter.get (timerOnErr st) id hint = Limiter.get st id hint
    ∧ Limiter.register (timerOnErr st) = Limiter.register st
    ∧ Limiter.enqueue (timerOnErr st) id = Limiter.enqueue st id
    ∧ exceptTimerErr (Limiter.get st id hint).1 = false
    ∧ exceptTimerErr (Limiter.register st).1 = false := by
  refine ⟨rfl, rfl, rfl, rfl, ?_, ?_⟩
  · rcases bucket_get_errors st.bucket id hint with ⟨p, hp⟩ | hp
    · simp [Limiter.get, hp, exceptTimerErr]
    · simp [Limiter.get, hp, exceptTimerErr, isTimerErr]
  · rcases bucket_add_part_errors st.bucket with ⟨p, hp⟩ | hp
    · simp [Limiter.register, hp, exceptTimerErr]
    · simp [Limiter.register, hp, exceptTimerErr, isTimerErr]

/-- Claim C10: `flush` and `shutdown` delegate directly to the
underlying stream: the wrapper returns the underlying result unchanged,
and the limiter's entire shared state — the bucket (capacity state) and
the waiter registry — is left untouched; no acquire, release or enqueue
takes place. -/
theorem flush_shutdown_frame (st : LimiterState) (uf : Except Nat Unit)
    (us : Except Nat Async) :
    Limited.flush st uf = (uf, st)
    ∧ Limited.shutdown st us = (us, st)
    ∧ (Limited.flush st uf).2.bucket = st.bucket
    ∧ (Limited.flush st uf).2.tasks = st.tasks
    ∧ (Limited.shutdown st us).2.bucket = st.bucket
    ∧ (Limited.shutdown st us).2.tasks = st.tasks :=
  ⟨rfl, rfl, rfl, rfl, rfl, rfl⟩

end AioLimited
